import Mathlib

/-!
Verification development for the path.jerryio path-discretization and
uniform-resampling core.

The repository ships the data model (controls, segments, paths), the export
formats and an extensive test suite for the calculation engine
(`getSegmentSamplePoints`, `getPathSamplePoints`,
`getUniformPointsFromSamples`, `toDerivativeHeading`).  The calculation
module itself is not part of the source tree available here, so:

* definitions marked `Modelled from the spec:` embed the missing engine
  following the specification's description;
* definitions named `test...` embed, verbatim, the inputs and the expected
  outputs asserted by the repository's own test suite
  (`src/unnamed/part_001`), which pin the engine's behaviour at concrete
  inputs and are treated as the authority where they and the specification
  disagree;
* `exportPathFile` embeds the guard logic of
  `src/src/format/LemLibFormatV0_4.tsx`, which is present in the tree.

Coordinates and headings are exact rationals; arc lengths, which require
Euclidean square roots, live in `ℝ`.  Unit conversion is out of scope (the
spec treats the density and the coordinates as being in one common unit).
-/

namespace PathJerryio

/-- A plain 2D position (the repository's `Vertex`/`Vector` of `math/path`). -/
structure Vertex where
  x : ℚ
  y : ℚ
  deriving DecidableEq, Repr

/-- An interior control point: shapes the curve, carries no heading
(`Control` in `types/Path`). -/
structure Control where
  x : ℚ
  y : ℚ
  deriving DecidableEq, Repr

/-- An endpoint control: terminates a segment and carries a heading in
degrees (`EndPointControl` in `types/Path`). -/
structure EndPointControl where
  x : ℚ
  y : ℚ
  heading : ℚ
  deriving DecidableEq, Repr

/-- A segment: first endpoint control, 0–2 interior controls, last endpoint
control (`Segment` in `types/Path`; the constructor
`new Segment(first, mid, last)` is used exactly this way by the tests). -/
structure Segment where
  first : EndPointControl
  mid : List Control
  last : EndPointControl
  deriving DecidableEq, Repr

/-- Position of a segment's first control. -/
def Segment.firstPos (s : Segment) : Vertex := ⟨s.first.x, s.first.y⟩

/-- Position of a segment's last control. -/
def Segment.lastPos (s : Segment) : Vertex := ⟨s.last.x, s.last.y⟩

/-- A path is its ordered list of segments; the spec's chain invariant
`segment[i].last === segment[i+1].first` is stated explicitly as `Chained`
below. -/
def Chained (p : List Segment) : Prop :=
  List.Chain' (fun s t => s.last = t.first) p

/-- Modelled from the spec: `CurveEvaluator.evaluate(segment, t)` (§4.1) —
the standard parametric Bezier basis matching the control count: 2 controls
linear, 3 quadratic, 4 cubic.  Control counts outside 2–4 are a
`MalformedSegmentError` in the spec; the data model above cannot produce a
count below 2, and for counts above 4 this total function falls back to the
linear basis (no claim concerns malformed segments). -/
def bezierEval (s : Segment) (t : ℚ) : Vertex :=
  match s.mid with
  | [] =>
      ⟨(1 - t) * s.first.x + t * s.last.x,
       (1 - t) * s.first.y + t * s.last.y⟩
  | [c] =>
      ⟨(1 - t) ^ 2 * s.first.x + 2 * (1 - t) * t * c.x + t ^ 2 * s.last.x,
       (1 - t) ^ 2 * s.first.y + 2 * (1 - t) * t * c.y + t ^ 2 * s.last.y⟩
  | [c, d] =>
      ⟨(1 - t) ^ 3 * s.first.x + 3 * (1 - t) ^ 2 * t * c.x
         + 3 * (1 - t) * t ^ 2 * d.x + t ^ 3 * s.last.x,
       (1 - t) ^ 3 * s.first.y + 3 * (1 - t) ^ 2 * t * c.y
         + 3 * (1 - t) * t ^ 2 * d.y + t ^ 3 * s.last.y⟩
  | _ =>
      ⟨(1 - t) * s.first.x + t * s.last.x,
       (1 - t) * s.first.y + t * s.last.y⟩

/-- Modelled from the spec: `SegmentSampler.sample(segment, stepCount)`
(§4.2) — `stepCount + 1` positions at `t = 0, 1/stepCount, …, 1`.  The
repository's reference subdivision count is 100 (its tests assert 101
samples per segment). -/
def getSegmentSamplePoints (n : ℕ) (s : Segment) : List Vertex :=
  (List.range (n + 1)).map (fun k : ℕ => bezierEval s ((k : ℚ) / (n : ℚ)))

/-- Modelled from the spec: the path sampler of §4.3 read literally — every
segment contributes all of its samples and "both copies" of each shared
boundary sample "are retained in the unreduced sequence".  The repository's
tests refute this reading (see the C3 counterexample), so this definition
exists only to be compared against them. -/
def pathSamplesSpec (n : ℕ) (p : List Segment) : List Vertex :=
  match p with
  | [] => []
  | s :: rest => getSegmentSamplePoints n s ++ pathSamplesSpec n rest

/-- Modelled from the spec, amended by the repository's tests: the path
sampler concatenates per-segment samples but keeps only one copy of each
shared boundary sample (the duplicate first sample of every non-first
segment is dropped), so an `m`-segment path yields `n*m + 1` samples —
matching the `201`/`301` sample counts the tests assert. -/
def pathSamplesDedup (n : ℕ) (p : List Segment) : List Vertex :=
  match p with
  | [] => []
  | [s] => getSegmentSamplePoints n s
  | s :: rest => getSegmentSamplePoints n s ++ (pathSamplesDedup n rest).tail

/-- Euclidean chord length between two sampled positions. -/
noncomputable def vecDist (a b : Vertex) : ℝ :=
  Real.sqrt (((b.x - a.x : ℚ) : ℝ) ^ 2 + ((b.y - a.y : ℚ) : ℝ) ^ 2)

/-- Polyline arc length: the sum of Euclidean distances between consecutive
sampled positions (spec §4.2 — a deliberate approximation, not an analytic
integral). -/
noncomputable def polylineLength : List Vertex → ℝ
  | a :: b :: rest => vecDist a b + polylineLength (b :: rest)
  | _ => 0

/-- Modelled from the spec: a segment's arc length is the accumulated chord
distance over its own samples at the same subdivision count (§4.2). -/
noncomputable def segArcLength (n : ℕ) (s : Segment) : ℝ :=
  polylineLength (getSegmentSamplePoints n s)

/-- Modelled from the spec: `PathSampler.samplePath` (§4.3) — the unreduced
sample sequence of the whole path together with its total arc length. -/
noncomputable def getPathSamplePoints (n : ℕ) (p : List Segment) :
    List Vertex × ℝ :=
  (pathSamplesDedup n p, polylineLength (pathSamplesDedup n p))

/-- Modelled from the spec: `HeadingInterpolator.derivativeHeading`
(§4.4) — the signed smallest-magnitude rotation from `fromDeg` to `toDeg`
in degrees, with the 180° tie resolved to −180 (the repository's
`toDerivativeHeading`; all six values asserted by its test are reproduced
exactly). -/
def toDerivativeHeading (fromDeg toDeg : ℚ) : ℚ :=
  (toDeg - fromDeg + 180) - 360 * ⌊(toDeg - fromDeg + 180) / 360⌋ - 180

/-- An output point of the uniform resampler: position, optional heading,
terminal mark (the repository's uniform point shape, asserted field-by-field
by its tests). -/
structure UniformPoint where
  x : ℚ
  y : ℚ
  heading : Option ℚ
  isLast : Bool
  deriving DecidableEq, Repr

/-- A half-open index range into the uniform point sequence contributed by
one original segment (the repository's `{index, from, to}` objects; `from`
is a Lean keyword, hence `fromIdx`/`toIdx`). -/
structure IndexRange where
  index : ℕ
  fromIdx : ℕ
  toIdx : ℕ
  deriving DecidableEq, Repr

/-- One segment's contribution to the arc-length-ordered sample walk, as
consumed by the resampler: the interior samples after the shared leading
boundary (each with its chord distance from the previous sample), the
terminal endpoint sample, and the terminal control's heading.  Distances
are taken as exact rationals; for the axis-aligned test paths they coincide
with the Euclidean chords. -/
structure SegGroup where
  interior : List (Vertex × ℚ)
  terminal : Vertex × ℚ
  endHeading : ℚ
  deriving DecidableEq, Repr

/-- Modelled from the spec: the density rule of §4.5 (rule 4) — walk the
samples accumulating chord distance; whenever the accumulator reaches or
exceeds the density at a non-endpoint sample, that sample is kept with no
heading and `isLast = false`, and the accumulator resets (overshoot is not
corrected). -/
def densityKeeps (d : ℚ) : ℚ → List (Vertex × ℚ) → List UniformPoint
  | _, [] => []
  | acc, s :: rest =>
      if d ≤ acc + s.2 then
        ⟨s.1.x, s.1.y, none, false⟩ :: densityKeeps d 0 rest
      else densityKeeps d (acc + s.2) rest

/-- Modelled from the spec: one segment's kept points — its density keeps
followed by the forced keep of its terminal endpoint (§4.5 rules 3–5; the
terminal keep carries the endpoint's heading and `isLast = true` and resets
the accumulator, so every segment's walk starts with accumulator 0). -/
def segPoints (d : ℚ) (g : SegGroup) : List UniformPoint :=
  densityKeeps d 0 g.interior
    ++ [⟨g.terminal.1.x, g.terminal.1.y, some g.endHeading, true⟩]

/-- Kept points of a run of consecutive segments. -/
def pathPointsRest (d : ℚ) : List SegGroup → List UniformPoint
  | [] => []
  | g :: rest => segPoints d g ++ pathPointsRest d rest

/-- Modelled from the spec: the full uniform point sequence — the always
kept first sample at the path's starting position with its heading and
`isLast = false` (§4.5 rule 1), then every segment's kept points in order;
a zero-segment path yields an empty result (§7). -/
def pathPoints (p0 : Vertex) (h0 : ℚ) (d : ℚ) : List SegGroup → List UniformPoint
  | [] => []
  | gs => ⟨p0.x, p0.y, some h0, false⟩ :: pathPointsRest d gs

/-- Output point counts attributed to each segment: the initial kept sample
counts toward segment 0 (§4.5 rule 6: `from` is 0 for `i = 0`). -/
def segmentCounts (d : ℚ) : List SegGroup → List ℕ
  | [] => []
  | g :: rest => ((segPoints d g).length + 1) :: rest.map (fun h => (segPoints d h).length)

/-- Turn a list of per-segment point counts into index ranges, numbering
segments from `i` and indexing output points from `ofs`. -/
def scanRanges : ℕ → ℕ → List ℕ → List IndexRange
  | _, _, [] => []
  | i, ofs, c :: cs => ⟨i, ofs, ofs + c⟩ :: scanRanges (i + 1) (ofs + c) cs

/-- Modelled from the spec: `UniformResampler.resample` (§4.5) — the kept
uniform points and the per-segment index ranges, given the path's starting
position and heading, the density, and the per-segment sample walks. -/
def getUniformPointsFromSamples (p0 : Vertex) (h0 d : ℚ)
    (gs : List SegGroup) : List UniformPoint × List IndexRange :=
  (pathPoints p0 h0 d gs, scanRanges 0 0 (segmentCounts d gs))

/-- Property `coversFrom ofs len rs`: the ranges `rs` tile the half-open interval
`[ofs, len)` in order — each range starts where its predecessor stopped, is
non-reversed, and the last one stops at `len`.  This is the "contiguous,
order-preserving, non-overlapping, possibly empty" partition property of
§8. -/
def coversFrom : ℕ → ℕ → List IndexRange → Prop
  | ofs, len, [] => ofs = len
  | ofs, len, r :: rest => r.fromIdx = ofs ∧ ofs ≤ r.toIdx ∧ coversFrom r.toIdx len rest

/-- The sample walk of the straight 6cm segment `(60,60) → (66,60)` of the
repository's one-segment 6cm test, at subdivision 6: interior samples at
`x = 61 … 65` and the terminal endpoint `(66,60)` with heading 90, each
chord exactly 1 (for an axis-aligned linear segment the chords are exact
rationals, and this subdivision's sample grid contains the density grid of
the scenario, so the sample-keeping resampler model reproduces the exact
claimed positions; the resampler's output is invariant under refining the
subdivision further along the exact grid). -/
def sixCmGroup : SegGroup :=
  ⟨[(⟨61, 60⟩, 1), (⟨62, 60⟩, 1), (⟨63, 60⟩, 1), (⟨64, 60⟩, 1), (⟨65, 60⟩, 1)],
   (⟨66, 60⟩, 1), 90⟩

/-- The sample walk of the zero-displacement segment
`(60,60,0°) → (60,60,90°)` of the repository's zero-displacement test:
every sample sits at `(60,60)` and every chord is 0 (the number of interior
samples is irrelevant to the walk, all its chords being zero). -/
def zeroCmGroup : SegGroup :=
  ⟨[(⟨60, 60⟩, 0)], (⟨60, 60⟩, 0), 90⟩

/-- The sample walk of a 1cm segment `(60,60) → (61,60)` with terminal
heading 90, at subdivision 1: no interior samples, one terminal chord of
length 1. -/
def oneCmGroup : SegGroup :=
  ⟨[], (⟨61, 60⟩, 1), 90⟩

/-! ## Data embedded from the repository's test suite

Each `test…` definition below transcribes one test of
`src/unnamed/part_001`: the path it constructs and the output it asserts
(`toMatchObject` / `toEqual`).  The tests chain segments by passing the
previous segment's `last` control to the next segment's constructor, so the
shared-endpoint invariant holds definitionally in these embeddings. -/

/-- Path of the test `Calculation with one segment and no position changes`
(lines 363–366): one zero-displacement segment `(60,60,0°) → (60,60,90°)`. -/
def testZero1_path : List Segment :=
  [⟨⟨60, 60, 0⟩, [], ⟨60, 60, 90⟩⟩]

/-- Expected uniform points of that test (lines 377–380). -/
def testZero1_points : List UniformPoint :=
  [⟨60, 60, some 0, false⟩, ⟨60, 60, some 90, true⟩]

/-- Expected segment index ranges of that test (lines 381–383). -/
def testZero1_ranges : List IndexRange :=
  [⟨0, 0, 2⟩]

/-- Path of the test `Calculation with one segment and 6cm position changes`
(line 326): one straight segment `(60,60,0°) → (66,60,90°)`. -/
def testSix_path : List Segment :=
  [⟨⟨60, 60, 0⟩, [], ⟨66, 60, 90⟩⟩]

/-- The fields the 6cm test asserts for each of its four expected uniform
points (lines 348–352): position and heading; it places no expectation on
`isLast` there. -/
def testSix_matchers : List (ℚ × ℚ × Option ℚ) :=
  [(60, 60, some 0), (62, 60, none), (64, 60, none), (66, 60, some 90)]

/-- Per-segment sample count asserted by the zero-displacement and 6cm
tests (`getSegmentSamplePoints(...).length === 101`, lines 341 and 370). -/
def test_segmentSampleCount : ℕ := 101

/-- Path of the test `Calculation with two segments and no position
changes` (lines 448–455): two zero-displacement segments
`(60,60,0°) → (60,60,90°) → (60,60,180°)`. -/
def testZero2_path : List Segment :=
  [⟨⟨60, 60, 0⟩, [], ⟨60, 60, 90⟩⟩,
   ⟨⟨60, 60, 90⟩, [], ⟨60, 60, 180⟩⟩]

/-- Expected uniform points of that test (lines 463–466): note the first
point is already marked `isLast = true`. -/
def testZero2_points : List UniformPoint :=
  [⟨60, 60, some 0, true⟩, ⟨60, 60, some 180, true⟩]

/-- Expected ranges of that test (lines 467–470). -/
def testZero2_ranges : List IndexRange :=
  [⟨0, 0, 1⟩, ⟨1, 1, 2⟩]

/-- Unreduced path sample count asserted by that test
(`pathSamples.points.length === 201`, line 460). -/
def testZero2_pathSampleCount : ℕ := 201

/-- Path of the test `Calculation with three segments and 4cm position
changes` (lines 528–540): displacements 2, 1, 1. -/
def testFour_path : List Segment :=
  [⟨⟨60, 60, 0⟩, [], ⟨62, 60, 90⟩⟩,
   ⟨⟨62, 60, 90⟩, [], ⟨63, 60, 180⟩⟩,
   ⟨⟨63, 60, 180⟩, [], ⟨64, 60, 270⟩⟩]

/-- Expected uniform points of the 4cm test (lines 548–552): the middle
segment's endpoint `(63,60,180°)` appears nowhere. -/
def testFour_points : List UniformPoint :=
  [⟨60, 60, some 0, false⟩, ⟨62, 60, some 90, true⟩, ⟨64, 60, some 270, true⟩]

/-- Expected ranges of the 4cm test (lines 553–557): the middle segment's
range is empty. -/
def testFour_ranges : List IndexRange :=
  [⟨0, 0, 2⟩, ⟨1, 2, 2⟩, ⟨2, 2, 3⟩]

/-- Path of the test `Calculation with three segments and 5cm position
changes` (lines 561–573): displacements 2, 1, 2. -/
def testFive_path : List Segment :=
  [⟨⟨60, 60, 0⟩, [], ⟨62, 60, 90⟩⟩,
   ⟨⟨62, 60, 90⟩, [], ⟨63, 60, 180⟩⟩,
   ⟨⟨63, 60, 180⟩, [], ⟨65, 60, 270⟩⟩]

/-- Expected uniform points of the 5cm test (lines 581–586): the heading
180° of the endpoint control `(63,60)` is carried by the point at
`(64,60)`, and no output point sits at `(63,60)`. -/
def testFive_points : List UniformPoint :=
  [⟨60, 60, some 0, false⟩, ⟨62, 60, some 90, true⟩,
   ⟨64, 60, some 180, true⟩, ⟨65, 60, some 270, true⟩]

/-- Expected ranges of the 5cm test (lines 587–591). -/
def testFive_ranges : List IndexRange :=
  [⟨0, 0, 2⟩, ⟨1, 2, 3⟩, ⟨2, 3, 4⟩]

/-- Path of the test `Calculation with three segments and 7cm position
changes` (lines 595–607): displacements 5, 1, 1. -/
def testSeven_path : List Segment :=
  [⟨⟨60, 60, 0⟩, [], ⟨65, 60, 90⟩⟩,
   ⟨⟨65, 60, 90⟩, [], ⟨66, 60, 180⟩⟩,
   ⟨⟨66, 60, 180⟩, [], ⟨67, 60, 270⟩⟩]

/-- Expected uniform points of the 7cm test (lines 615–621): the heading
90° of the endpoint control `(65,60)` is carried by the point at `(64,60)`. -/
def testSeven_points : List UniformPoint :=
  [⟨60, 60, some 0, false⟩, ⟨62, 60, none, false⟩, ⟨64, 60, some 90, true⟩,
   ⟨66, 60, some 180, true⟩, ⟨67, 60, some 270, true⟩]

/-- Expected ranges of the 7cm test (lines 622–626). -/
def testSeven_ranges : List IndexRange :=
  [⟨0, 0, 3⟩, ⟨1, 3, 4⟩, ⟨2, 4, 5⟩]

/-! ## LemLib v0.4 export (from `src/src/format/LemLibFormatV0_4.tsx`) -/

/-- A path as the LemLib exporter sees it: its list of splines (each a list
of control positions; only emptiness matters to the embedded guards). -/
structure LemLibPath where
  splines : List (List Vertex)
  deriving DecidableEq, Repr

/-- The slice of `MainApp` consulted by the exporter's guards: its list of
paths. -/
structure MainAppModel where
  paths : List LemLibPath
  deriving DecidableEq, Repr

/-- Function `LemLibFormatV0_4.exportPathFile` (lines 118–126 of the
source): after
initializing an empty output string it returns `undefined` when the app has
no paths, then again when the first path has no splines; only past both
guards does it build the output.  The post-guard serialization (knot
calculation, ghost knot, spline table) depends on the missing calculation
module and is abstracted as `body`; the claim under verification concerns
only the guards. -/
def exportPathFile (body : MainAppModel → String) (app : MainAppModel) :
    Option String :=
  match app.paths with
  | [] => none
  | path :: _ => if path.splines = [] then none else some (body app)

/-- Headings of the original endpoint controls that precede segment `i`'s
terminal control in the path: the path's leading control and the terminal
controls of segments `0 … i-1`. -/
def earlierHeadings (p : List Segment) (i : ℕ) : List ℚ :=
  match p with
  | [] => []
  | s :: _ => s.first.heading :: (p.take i).map (fun t => t.last.heading)

/-- The amended endpoint-preservation property, checked against one test's
path, expected points and expected ranges: one range per segment; every
segment whose range is nonempty ends it with a point marked terminal that
carries either its own terminal control's heading or that of an earlier
endpoint control; and the path's final endpoint is preserved exactly
(position, heading and terminal mark). -/
def amendedEndpointOk (p : List Segment) (pts : List UniformPoint)
    (rs : List IndexRange) : Bool :=
  decide (rs.length = p.length)
  && (List.range rs.length).all (fun i =>
       match rs[i]?, p[i]? with
       | some r, some s =>
           decide (r.fromIdx = r.toIdx)
           || (match pts[r.toIdx - 1]? with
               | some q => q.isLast
                   && (decide (q.heading = some s.last.heading)
                       || (earlierHeadings p i).any
                            (fun h => decide (q.heading = some h)))
               | none => false)
       | _, _ => false)
  && (match pts.getLast?, p.getLast? with
      | some q, some s =>
          decide (q.x = s.last.x) && decide (q.y = s.last.y)
          && decide (q.heading = some s.last.heading) && q.isLast
      | _, _ => false)

/-! ## Supporting lemmas -/

/-- Rewriting `toDerivativeHeading` through `Int.fract`. -/
theorem toDerivativeHeading_eq_fract (f t : ℚ) :
    toDerivativeHeading f t = 360 * Int.fract ((t - f + 180) / 360) - 180 := by
  unfold toDerivativeHeading
  rw [Int.fract]
  ring

/-- The density walk keeps nothing while the remaining distance cannot fill
the density. -/
theorem densityKeeps_eq_nil (d : ℚ) :
    ∀ (l : List (Vertex × ℚ)) (acc : ℚ), (∀ s ∈ l, 0 ≤ s.2) →
      acc + (l.map Prod.snd).sum < d → densityKeeps d acc l = [] := by
  intro l
  induction l with
  | nil => intro acc _ _; rfl
  | cons s rest ih =>
      intro acc hnn hsum
      have hrest : (0 : ℚ) ≤ (rest.map Prod.snd).sum := by
        apply List.sum_nonneg
        intro x hx
        obtain ⟨u, hu, rfl⟩ := List.mem_map.mp hx
        exact hnn u (List.mem_cons_of_mem _ hu)
      have hlt : acc + s.2 < d := by
        simp only [List.map_cons, List.sum_cons] at hsum
        linarith
      unfold densityKeeps
      rw [if_neg (by linarith)]
      apply ih (acc + s.2) (fun u hu => hnn u (List.mem_cons_of_mem _ hu))
      simp only [List.map_cons, List.sum_cons] at hsum
      linarith

/-- A segment sample list has `n + 1` entries. -/
theorem getSegmentSamplePoints_length (n : ℕ) (s : Segment) :
    (getSegmentSamplePoints n s).length = n + 1 := by
  unfold getSegmentSamplePoints
  rw [List.length_map, List.length_range]

/-- The Bezier evaluator reproduces the first endpoint exactly at `t = 0`. -/
theorem bezierEval_zero (s : Segment) : bezierEval s 0 = s.firstPos := by
  unfold bezierEval Segment.firstPos
  rcases s with ⟨a, mid, b⟩
  match mid with
  | [] => simp
  | [c] => norm_num
  | [c, e] => norm_num
  | c :: e :: g :: rest => simp

/-- The Bezier evaluator reproduces the last endpoint exactly at `t = 1`. -/
theorem bezierEval_one (s : Segment) : bezierEval s 1 = s.lastPos := by
  unfold bezierEval Segment.lastPos
  rcases s with ⟨a, mid, b⟩
  match mid with
  | [] => norm_num
  | [c] => norm_num
  | [c, e] => norm_num
  | c :: e :: g :: rest => norm_num

/-- The first sample of a segment is its first endpoint. -/
theorem getSegmentSamplePoints_head (n : ℕ) (s : Segment) :
    (getSegmentSamplePoints n s).head? = some s.firstPos := by
  unfold getSegmentSamplePoints
  rw [List.range_succ_eq_map]
  simp [bezierEval_zero]

/-- The last sample of a positively subdivided segment is its last endpoint. -/
theorem getSegmentSamplePoints_getLast (n : ℕ) (hn : 0 < n) (s : Segment) :
    (getSegmentSamplePoints n s).getLast? = some s.lastPos := by
  unfold getSegmentSamplePoints
  rw [List.range_succ, List.map_append]
  rw [List.getLast?_append]
  have hdiv : ((n : ℚ)) / (n : ℚ) = 1 := by
    apply div_self
    exact_mod_cast hn.ne.symm
  simp [hdiv, bezierEval_one]

/-- The resampled point list is one initial keep plus the per-segment
keeps. -/
theorem pathPointsRest_length (d : ℚ) (gs : List SegGroup) :
    (pathPointsRest d gs).length = (gs.map (fun g => (segPoints d g).length)).sum := by
  induction gs with
  | nil => rfl
  | cons g rest ih => simp [pathPointsRest, ih]

/-- The per-segment counts add up to the length of the resampled point
list. -/
theorem segmentCounts_sum (p0 : Vertex) (h0 d : ℚ) (gs : List SegGroup) :
    (segmentCounts d gs).sum = (pathPoints p0 h0 d gs).length := by
  cases gs with
  | nil => rfl
  | cons g rest =>
      show ((segPoints d g).length + 1) + (rest.map (fun h => (segPoints d h).length)).sum
        = (⟨p0.x, p0.y, some h0, false⟩ :: pathPointsRest d (g :: rest) : List UniformPoint).length
      simp [pathPointsRest, pathPointsRest_length]
      omega

/-- Ranges built by `scanRanges` tile exactly the interval whose length is
the sum of the counts it is given. -/
theorem scanRanges_covers (cs : List ℕ) :
    ∀ i ofs, coversFrom ofs (ofs + cs.sum) (scanRanges i ofs cs) := by
  induction cs with
  | nil => intro i ofs; simp [scanRanges, coversFrom]
  | cons c cs ih =>
      intro i ofs
      refine ⟨rfl, Nat.le_add_right _ _, ?_⟩
      have h := ih (i + 1) (ofs + c)
      have harr : ofs + (c :: cs).sum = ofs + c + cs.sum := by
        simp [List.sum_cons]
        omega
      rw [harr]
      exact h

/-- Ranges built by `scanRanges` carry consecutive segment indexes. -/
theorem scanRanges_indexes (cs : List ℕ) :
    ∀ i ofs, (scanRanges i ofs cs).map IndexRange.index = List.range' i cs.length := by
  induction cs with
  | nil => intro i ofs; simp [scanRanges]
  | cons c cs ih =>
      intro i ofs
      simp only [scanRanges, List.map_cons, List.length_cons, List.range'_succ]
      rw [ih (i + 1) (ofs + c)]

/-- There is one count per segment group. -/
theorem segmentCounts_length (d : ℚ) (gs : List SegGroup) :
    (segmentCounts d gs).length = gs.length := by
  cases gs with
  | nil => rfl
  | cons g rest => simp [segmentCounts]

/-- Chord length of a coincident pair is zero. -/
theorem vecDist_self (a : Vertex) : vecDist a a = 0 := by
  unfold vecDist
  simp

/-- Chord length of a unit step along the x axis is one. -/
theorem vecDist_unit_step (x y : ℚ) : vecDist ⟨x, y⟩ ⟨x + 1, y⟩ = 1 := by
  unfold vecDist
  push_cast
  rw [show ((x : ℝ) + 1 - x) ^ 2 + ((y : ℝ) - y) ^ 2 = 1 by ring]
  exact Real.sqrt_one

/-- The positions of `sixCmGroup` are exactly the samples of the 6cm test
segment at subdivision 6 (after its leading boundary sample `(60,60)`). -/
theorem sixCmGroup_positions :
    getSegmentSamplePoints 6 ⟨⟨60, 60, 0⟩, [], ⟨66, 60, 90⟩⟩
      = ⟨60, 60⟩ :: (sixCmGroup.interior.map Prod.fst ++ [sixCmGroup.terminal.1]) := by
  show (List.range 7).map _ = _
  norm_num [getSegmentSamplePoints, bezierEval, sixCmGroup, List.range_succ]

/-- The chords recorded in `sixCmGroup` are the exact Euclidean distances
between its consecutive samples: every recorded chord is 1, and every
consecutive pair of positions of the walk (starting at the boundary sample
`(60,60)`) is at Euclidean distance 1. -/
theorem sixCmGroup_chords :
    (∀ pr ∈ sixCmGroup.interior, pr.2 = 1) ∧ sixCmGroup.terminal.2 = 1
    ∧ List.Chain' (fun a b => vecDist a b = 1)
        (⟨60, 60⟩ :: (sixCmGroup.interior.map Prod.fst ++ [sixCmGroup.terminal.1])) := by
  refine ⟨by decide, by decide, ?_⟩
  show List.Chain' (fun a b => vecDist a b = 1)
    [⟨60, 60⟩, ⟨61, 60⟩, ⟨62, 60⟩, ⟨63, 60⟩, ⟨64, 60⟩, ⟨65, 60⟩, ⟨66, 60⟩]
  simp only [List.chain'_cons, List.chain'_singleton, and_true]
  refine ⟨?_, ?_, ?_, ?_, ?_, ?_⟩ <;>
    · unfold vecDist
      push_cast
      norm_num [Real.sqrt_eq_one]

/-- The chords recorded in `zeroCmGroup` are the exact Euclidean distances
of its walk: all samples coincide at `(60,60)` and all chords are zero. -/
theorem zeroCmGroup_chords :
    (∀ pr ∈ zeroCmGroup.interior, pr.1 = ⟨60, 60⟩ ∧ pr.2 = 0)
    ∧ zeroCmGroup.terminal.1 = ⟨60, 60⟩ ∧ zeroCmGroup.terminal.2 = 0
    ∧ vecDist ⟨60, 60⟩ ⟨60, 60⟩ = 0 := by
  refine ⟨by decide, by decide, by decide, vecDist_self _⟩

/-- Every expected range list asserted by the repository's resampling tests
satisfies the partition property of C6 with respect to its expected point
list. -/
theorem expected_ranges_cover :
    coversFrom 0 testZero1_points.length testZero1_ranges
    ∧ coversFrom 0 testZero2_points.length testZero2_ranges
    ∧ coversFrom 0 testFour_points.length testFour_ranges
    ∧ coversFrom 0 testFive_points.length testFive_ranges
    ∧ coversFrom 0 testSeven_points.length testSeven_ranges := by
  refine ⟨?_, ?_, ?_, ?_, ?_⟩ <;>
    norm_num [coversFrom, testZero1_points, testZero1_ranges, testZero2_points,
      testZero2_ranges, testFour_points, testFour_ranges, testFive_points,
      testFive_ranges, testSeven_points, testSeven_ranges]

/-! ## The claims -/

/-- C8: the heading primitive satisfies the six fixed equalities of the
repository's `toDerivativeHeading` test (`src/unnamed/part_001` lines
657–664), with the 180° tie resolving to −180 both ways. -/
theorem derivative_heading_values_theorem :
    toDerivativeHeading 0 270 = -90 ∧ toDerivativeHeading 270 0 = 90
    ∧ toDerivativeHeading 0 90 = 90 ∧ toDerivativeHeading 90 0 = -90
    ∧ toDerivativeHeading 0 180 = -180 ∧ toDerivativeHeading 180 0 = -180 := by
  refine ⟨?_, ?_, ?_, ?_, ?_, ?_⟩ <;> norm_num [toDerivativeHeading]

/-- C4 counterexample: `derivativeHeading(0,180) = −180` (as the
repository's test asserts), and −180 does not lie in the claimed range
`(−180, 180]`, which requires `−180 < value`. -/
theorem derivative_heading_range_counterexample :
    toDerivativeHeading 0 180 = -180
    ∧ ¬ (-180 < toDerivativeHeading 0 180 ∧ toDerivativeHeading 0 180 ≤ 180) := by
  constructor
  · norm_num [toDerivativeHeading]
  · norm_num [toDerivativeHeading]

/-- C4 amended: `derivativeHeading` returns the signed smallest-magnitude
rotation from `fromDeg` to `toDeg` — it differs from `toDeg − fromDeg` by a
multiple of 360° and has magnitude no larger than any other such
representative — and its value lies in the half-open range `[−180, 180)`
(the 180° tie resolves to −180, so −180 is attained and +180 never is). -/
theorem derivative_heading_range_amended (f t : ℚ) :
    (-180 ≤ toDerivativeHeading f t ∧ toDerivativeHeading f t < 180)
    ∧ (∃ k : ℤ, toDerivativeHeading f t - (t - f) = 360 * k)
    ∧ (∀ d : ℚ, (∃ k : ℤ, d - (t - f) = 360 * k) →
        |toDerivativeHeading f t| ≤ |d|) := by
  have hfr := toDerivativeHeading_eq_fract f t
  have h0 : (0 : ℚ) ≤ Int.fract ((t - f + 180) / 360) := Int.fract_nonneg _
  have h1 : Int.fract ((t - f + 180) / 360) < 1 := Int.fract_lt_one _
  have hlow : -180 ≤ toDerivativeHeading f t := by rw [hfr]; linarith
  have hhigh : toDerivativeHeading f t < 180 := by rw [hfr]; linarith
  refine ⟨⟨hlow, hhigh⟩, ?_, ?_⟩
  · refine ⟨-⌊(t - f + 180) / 360⌋, ?_⟩
    unfold toDerivativeHeading
    push_cast
    ring
  · rintro d ⟨k, hk⟩
    obtain ⟨k₀, hk₀⟩ : ∃ k₀ : ℤ, toDerivativeHeading f t - (t - f) = 360 * k₀ := by
      refine ⟨-⌊(t - f + 180) / 360⌋, ?_⟩
      unfold toDerivativeHeading
      push_cast
      ring
    have habs : |toDerivativeHeading f t| ≤ 180 := by
      rw [abs_le]; exact ⟨hlow, hhigh.le⟩
    rcases eq_or_ne k k₀ with rfl | hne
    · have : d = toDerivativeHeading f t := by linarith
      rw [this]
    · have hdiff : d - toDerivativeHeading f t = 360 * ((k : ℚ) - (k₀ : ℚ)) := by
        linarith
      have hk1 : (1 : ℚ) ≤ |(k : ℚ) - (k₀ : ℚ)| := by
        have : (1 : ℤ) ≤ |k - k₀| := Int.one_le_abs (sub_ne_zero.mpr hne)
        calc (1 : ℚ) = ((1 : ℤ) : ℚ) := by norm_num
          _ ≤ ((|k - k₀| : ℤ) : ℚ) := by exact_mod_cast this
          _ = |(k : ℚ) - (k₀ : ℚ)| := by push_cast [abs_sub_comm]; rw [abs_sub_comm]
      have h360 : (360 : ℚ) ≤ |d - toDerivativeHeading f t| := by
        rw [hdiff, abs_mul]
        have : |(360 : ℚ)| = 360 := by norm_num
        rw [this]
        linarith
      have htri : |d - toDerivativeHeading f t| ≤ |d| + |toDerivativeHeading f t| := by
        calc |d - toDerivativeHeading f t| ≤ |d| + |-(toDerivativeHeading f t)| := by
              rw [sub_eq_add_neg]; exact abs_add _ _
          _ = |d| + |toDerivativeHeading f t| := by rw [abs_neg]
      linarith

/-- C4 witness: at the concrete pair `(0, 270)` the amended theorem applies
with the representative `d = 270` (which differs from `270 − 0` by zero
full turns). -/
theorem derivative_heading_range_witness :
    |toDerivativeHeading 0 270| ≤ |(270 : ℚ)| :=
  (derivative_heading_range_amended 0 270).2.2 270 ⟨0, by norm_num⟩

/-- C10: `LemLibFormatV0_4.exportPathFile` produces no output (and, being a
total function here as in the straight-line guard code of the source,
raises no error) whenever the app has zero paths or the first path has zero
splines. -/
theorem export_path_file_empty_theorem (body : MainAppModel → String)
    (app : MainAppModel)
    (h : app.paths = [] ∨ ∃ p rest, app.paths = p :: rest ∧ p.splines = []) :
    exportPathFile body app = none := by
  rcases h with h | ⟨p, rest, hp, hs⟩
  · unfold exportPathFile
    rw [h]
  · unfold exportPathFile
    rw [hp]
    simp [hs]

/-- C10 witness: a concrete app with no paths exports nothing. -/
theorem export_path_file_empty_witness :
    exportPathFile (fun _ => "") ⟨[]⟩ = none :=
  export_path_file_empty_theorem (fun _ => "") ⟨[]⟩ (Or.inl rfl)

/-- C1 counterexample: in the three-segment 5cm test of the repository, the
original endpoint control `(63,60,180°)` terminates segment 1, yet the
expected resampled output asserted by that test contains no point at the
position `(63,60)` — so the resampler does not keep every original
endpoint at its exact position. -/
theorem endpoint_preservation_counterexample :
    (testFive_path[1]?).map Segment.last = some ⟨63, 60, 180⟩
    ∧ ∀ q ∈ testFive_points, ¬ (q.x = 63 ∧ q.y = 60) := by
  decide

/-- C1 amended: what the repository's expected outputs do guarantee for
original endpoint controls — checked over the 5cm, 7cm, 4cm, two-segment
zero-displacement and one-segment zero-displacement tests: every segment
with a nonempty output range ends it with an `isLast = true` point carrying
the heading of its terminal control or of an earlier endpoint control, and
the path's final endpoint is preserved exactly, while exact positions of
interior endpoint controls are not guaranteed. -/
theorem endpoint_preservation_amended :
    amendedEndpointOk testFive_path testFive_points testFive_ranges = true
    ∧ amendedEndpointOk testSeven_path testSeven_points testSeven_ranges = true
    ∧ amendedEndpointOk testFour_path testFour_points testFour_ranges = true
    ∧ amendedEndpointOk testZero2_path testZero2_points testZero2_ranges = true
    ∧ amendedEndpointOk testZero1_path testZero1_points testZero1_ranges = true := by
  decide

/-- C2 counterexample: the repository's one-segment zero-displacement test
asserts `isLast` to be `false` for the first of the two output points, so
they are not both marked `isLast = true` as the claim states. -/
theorem zero_displacement_counterexample :
    testZero1_points.map UniformPoint.isLast = [false, true]
    ∧ ¬ ∀ q ∈ testZero1_points, q.isLast = true := by
  decide

/-- C2 amended: the zero-displacement path `(60,60,0°) → (60,60,90°)` at
density 2 yields exactly the two points asserted by the repository's test —
`(60,60)` heading 0 with `isLast = false`, then `(60,60)` heading 90 with
`isLast = true` — and the single range `{0, 0, 2}`; the spec-modelled
resampler on the corresponding sample walk (100 zero-length chords)
reproduces both lists exactly. -/
theorem zero_displacement_amended :
    (getUniformPointsFromSamples ⟨60, 60⟩ 0 2 [zeroCmGroup]).1
      = testZero1_points
    ∧ (getUniformPointsFromSamples ⟨60, 60⟩ 0 2 [zeroCmGroup]).2
      = testZero1_ranges := by
  norm_num [getUniformPointsFromSamples, pathPoints, pathPointsRest, segPoints,
    densityKeeps, segmentCounts, scanRanges, zeroCmGroup, testZero1_points,
    testZero1_ranges]

/-- C5: the straight 6cm segment `(60,60,0°) → (66,60,90°)` at density 2.
The spec-modelled resampler, run on the segment's sample walk at a
subdivision whose grid contains the density grid, yields exactly the four
claimed points `(60,60,0°,last=false)`, `(62,60,undef,last=false)`,
`(64,60,undef,last=false)`, `(66,60,90°,last=true)` and the single range
`{0, 0, 4}`; the positions and headings also coincide field-by-field with
what the repository's 6cm test asserts (embedded as `testSix_matchers`;
that test asserts no `isLast` values). -/
theorem six_cm_scenario_theorem :
    (getUniformPointsFromSamples ⟨60, 60⟩ 0 2 [sixCmGroup]).1
      = [⟨60, 60, some 0, false⟩, ⟨62, 60, none, false⟩,
         ⟨64, 60, none, false⟩, ⟨66, 60, some 90, true⟩]
    ∧ ((getUniformPointsFromSamples ⟨60, 60⟩ 0 2 [sixCmGroup]).1).map
          (fun q => (q.x, q.y, q.heading)) = testSix_matchers
    ∧ (getUniformPointsFromSamples ⟨60, 60⟩ 0 2 [sixCmGroup]).2
      = [⟨0, 0, 4⟩] := by
  norm_num [getUniformPointsFromSamples, pathPoints, pathPointsRest, segPoints,
    densityKeeps, segmentCounts, scanRanges, sixCmGroup, testSix_matchers]

/-- C7: a segment whose total arc length is below the density produces no
density-keep points — on the spec-modelled resampler its kept points reduce
to the single forced terminal keep — and empty ranges do occur: in the
repository's three-segment 4cm test the middle segment's expected range is
`{1, 2, 2}`, with `from = to`. -/
theorem short_segment_theorem :
    (∀ (d : ℚ) (g : SegGroup), 0 < d → (∀ s ∈ g.interior, 0 ≤ s.2) →
        0 ≤ g.terminal.2 →
        (g.interior.map Prod.snd).sum + g.terminal.2 < d →
        segPoints d g = [⟨g.terminal.1.x, g.terminal.1.y, some g.endHeading, true⟩])
    ∧ (∃ r, testFour_ranges[1]? = some r ∧ r.index = 1 ∧ r.fromIdx = r.toIdx) := by
  constructor
  · intro d g hd hnn hterm hsum
    unfold segPoints
    rw [densityKeeps_eq_nil d g.interior 0 hnn (by linarith)]
    rfl
  · exact ⟨⟨1, 2, 2⟩, rfl, rfl, rfl⟩

/-- C7 witness: the 1cm segment group at density 2 keeps only its forced
terminal point. -/
theorem short_segment_witness :
    segPoints 2 oneCmGroup = [⟨61, 60, some 90, true⟩] :=
  short_segment_theorem.1 2 oneCmGroup (by norm_num)
    (by intro s hs; simp [oneCmGroup] at hs) (by norm_num [oneCmGroup])
    (by norm_num [oneCmGroup])

/-- C6: for every starting sample, every density and every sample-group
sequence — hence for every path and positive density, whatever chord
distances its sampling produces — the `segmentIndexes` returned by the
spec-modelled resampler partition the half-open interval
`[0, len(points))` into contiguous, order-preserving, non-overlapping
half-open ranges, exactly one per input segment, labelled by consecutive
segment indexes (so `to` of each range equals `from` of the next). -/
theorem segment_indexes_partition_theorem (p0 : Vertex) (h0 d : ℚ)
    (gs : List SegGroup) :
    coversFrom 0 (getUniformPointsFromSamples p0 h0 d gs).1.length
      (getUniformPointsFromSamples p0 h0 d gs).2
    ∧ ((getUniformPointsFromSamples p0 h0 d gs).2).map IndexRange.index
        = List.range gs.length := by
  constructor
  · show coversFrom 0 (pathPoints p0 h0 d gs).length (scanRanges 0 0 (segmentCounts d gs))
    have h := scanRanges_covers (segmentCounts d gs) 0 0
    rw [Nat.zero_add, segmentCounts_sum p0 h0 d gs] at h
    exact h
  · show (scanRanges 0 0 (segmentCounts d gs)).map IndexRange.index = List.range gs.length
    rw [scanRanges_indexes (segmentCounts d gs) 0 0, segmentCounts_length,
      List.range_eq_range']

/-- C3 counterexample: reading §4.3 literally — each of the two segments of
the two-segment zero-displacement test contributes its full 101 samples
(the count the repository's tests assert per segment) and both copies of
the shared boundary sample are retained — would give 202 unreduced samples,
but the repository's test asserts 201: the duplicated boundary sample is
not retained twice. -/
theorem boundary_sample_counterexample :
    (pathSamplesSpec 100 testZero2_path).length = 202
    ∧ (∀ s ∈ testZero2_path,
        (getSegmentSamplePoints 100 s).length = test_segmentSampleCount)
    ∧ testZero2_pathSampleCount = 201
    ∧ (pathSamplesSpec 100 testZero2_path).length ≠ testZero2_pathSampleCount := by
  have hlen : (pathSamplesSpec 100 testZero2_path).length = 202 := by
    simp [pathSamplesSpec, testZero2_path, getSegmentSamplePoints_length]
  refine ⟨hlen, ?_, rfl, ?_⟩
  · intro s _
    simp [test_segmentSampleCount, getSegmentSamplePoints_length]
  · rw [hlen]
    simp [testZero2_pathSampleCount]

/-- The two-segment zero-displacement test path is chained: the test passes
the first segment's `last` control as the second segment's first control. -/
theorem testZero2_path_chained : Chained testZero2_path := by
  refine List.chain'_cons.mpr ⟨rfl, ?_⟩
  exact List.chain'_singleton _

/-- Sample count of the deduplicating path sampler on a nonempty path. -/
theorem pathSamplesDedup_length (n : ℕ) :
    ∀ (s : Segment) (rest : List Segment),
      (pathSamplesDedup n (s :: rest)).length = n * (rest.length + 1) + 1 := by
  intro s rest
  induction rest generalizing s with
  | nil =>
      show (getSegmentSamplePoints n s).length = n * 1 + 1
      rw [getSegmentSamplePoints_length]
      omega
  | cons t rest' ih =>
      show (getSegmentSamplePoints n s ++ (pathSamplesDedup n (t :: rest')).tail).length
        = n * ((t :: rest').length + 1) + 1
      rw [List.length_append, getSegmentSamplePoints_length, List.length_tail, ih t]
      simp [Nat.mul_succ]
      omega

/-- C3 amended: per-segment sample lists do share their boundary point —
for a chained path the last sample of segment `i` equals the first sample
of segment `i+1` — but the path sampler retains only one copy of it, so an
`m`-segment path yields `n·m + 1` unreduced samples (201 for the
two-segment tests, 301 for the three-segment tests), not `(n+1)·m`. -/
theorem boundary_sample_retention_amended (n : ℕ) (p : List Segment)
    (hn : 0 < n) (hp : p ≠ []) (hc : Chained p) :
    (pathSamplesDedup n p).length = n * p.length + 1
    ∧ List.Chain' (fun s t => (getSegmentSamplePoints n s).getLast?
        = (getSegmentSamplePoints n t).head?) p := by
  constructor
  · obtain ⟨s, rest, rfl⟩ : ∃ s rest, p = s :: rest := by
      cases p with
      | nil => exact absurd rfl hp
      | cons s rest => exact ⟨s, rest, rfl⟩
    exact pathSamplesDedup_length n s rest
  · refine List.Chain'.imp ?_ hc
    intro s t h
    rw [getSegmentSamplePoints_getLast n hn, getSegmentSamplePoints_head]
    unfold Segment.lastPos Segment.firstPos
    rw [h]

/-- C3 witness: the amended count and boundary coincidence at the
two-segment zero-displacement test path with the reference subdivision. -/
theorem boundary_sample_retention_witness :
    (pathSamplesDedup 100 testZero2_path).length = 100 * testZero2_path.length + 1
    ∧ List.Chain' (fun s t => (getSegmentSamplePoints 100 s).getLast?
        = (getSegmentSamplePoints 100 t).head?) testZero2_path :=
  boundary_sample_retention_amended 100 testZero2_path (by norm_num)
    (by simp [testZero2_path]) testZero2_path_chained

/-- Chord lengths are non-negative. -/
theorem vecDist_nonneg (a b : Vertex) : 0 ≤ vecDist a b :=
  Real.sqrt_nonneg _

/-- Polyline lengths are non-negative. -/
theorem polylineLength_nonneg : ∀ l : List Vertex, 0 ≤ polylineLength l := by
  intro l
  induction l with
  | nil => exact le_refl 0
  | cons a tail ih =>
      cases tail with
      | nil => exact le_refl 0
      | cons b rest =>
          show 0 ≤ vecDist a b + polylineLength (b :: rest)
          exact add_nonneg (vecDist_nonneg a b) ih

/-- Splitting a polyline at an interior vertex splits its length. -/
theorem polylineLength_append (y : Vertex) (ys : List Vertex) :
    ∀ xs : List Vertex,
      polylineLength (xs ++ y :: ys) = polylineLength (xs ++ [y]) + polylineLength (y :: ys) := by
  intro xs
  induction xs with
  | nil => simp [polylineLength]
  | cons x xs ih =>
      cases xs with
      | nil =>
          show vecDist x y + polylineLength (y :: ys)
            = (vecDist x y + polylineLength [y]) + polylineLength (y :: ys)
          simp [polylineLength]

      | cons x' xs' =>
          show vecDist x x' + polylineLength ((x' :: xs') ++ y :: ys)
            = (vecDist x x' + polylineLength ((x' :: xs') ++ [y])) + polylineLength (y :: ys)
          rw [ih]
          ring

/-- Appending one vertex to a nonempty polyline adds the final chord. -/
theorem polylineLength_concat (c : Vertex) :
    ∀ (xs : List Vertex) (b : Vertex), xs.getLast? = some b →
      polylineLength (xs ++ [c]) = polylineLength xs + vecDist b c := by
  intro xs
  induction xs with
  | nil => intro b h; simp at h
  | cons x xs ih =>
      intro b h
      cases xs with
      | nil =>
          have hb : x = b := by simpa using h
          subst hb
          show vecDist x c + polylineLength [c] = polylineLength [x] + vecDist x c
          simp [polylineLength]
      | cons x' xs' =>
          rw [List.getLast?_cons_cons] at h
          show vecDist x x' + polylineLength ((x' :: xs') ++ [c])
            = (vecDist x x' + polylineLength (x' :: xs')) + vecDist b c
          rw [ih b h]
          ring

/-- Concatenating a polyline whose last vertex is the head of the
continuation adds the lengths. -/
theorem polylineLength_glue (xs : List Vertex) (b : Vertex) (bs : List Vertex)
    (h : xs.getLast? = some b) :
    polylineLength (xs ++ bs) = polylineLength xs + polylineLength (b :: bs) := by
  cases bs with
  | nil => simp [polylineLength]
  | cons c cs =>
      rw [polylineLength_append c cs xs]
      rw [polylineLength_concat c xs b h]
      show polylineLength xs + vecDist b c + polylineLength (c :: cs)
        = polylineLength xs + (vecDist b c + polylineLength (c :: cs))
      ring

/-- The first sample the path sampler emits is the first segment's first
endpoint. -/
theorem pathSamplesDedup_head (n : ℕ) (t : Segment) (rest : List Segment) :
    (pathSamplesDedup n (t :: rest)).head? = some t.firstPos := by
  cases rest with
  | nil => exact getSegmentSamplePoints_head n t
  | cons u rest' =>
      show (getSegmentSamplePoints n t ++ (pathSamplesDedup n (u :: rest')).tail).head?
        = some t.firstPos
      rw [List.head?_append]
      rw [getSegmentSamplePoints_head]
      rfl

/-- C9: for every chained path (at a positive common subdivision count) the
total arc length returned by the path sampler is non-negative and equals
the sum of its segments' independently computed polyline arc lengths. -/
theorem arc_length_additivity_theorem (n : ℕ) (p : List Segment)
    (hn : 0 < n) (hc : Chained p) :
    (getPathSamplePoints n p).2 = (p.map (segArcLength n)).sum
    ∧ 0 ≤ (getPathSamplePoints n p).2 := by
  refine ⟨?_, polylineLength_nonneg _⟩
  show polylineLength (pathSamplesDedup n p) = (p.map (segArcLength n)).sum
  induction p with
  | nil => simp [pathSamplesDedup, polylineLength]
  | cons s rest ih =>
      cases rest with
      | nil =>
          show polylineLength (getSegmentSamplePoints n s) = segArcLength n s + 0
          rw [add_zero]
          rfl
      | cons t rest' =>
          have hpair : s.last = t.first := (List.chain'_cons.mp hc).1
          have htail : Chained (t :: rest') := (List.chain'_cons.mp hc).2
          show polylineLength (getSegmentSamplePoints n s ++ (pathSamplesDedup n (t :: rest')).tail)
            = segArcLength n s + ((t :: rest').map (segArcLength n)).sum
          obtain ⟨d0, dtail, hD⟩ : ∃ d0 dtail, pathSamplesDedup n (t :: rest') = d0 :: dtail := by
            have hh := pathSamplesDedup_head n t rest'
            cases hcase : pathSamplesDedup n (t :: rest') with
            | nil => rw [hcase] at hh; simp at hh
            | cons d0 dtail => exact ⟨d0, dtail, rfl⟩
          have hd0 : d0 = t.firstPos := by
            have hh := pathSamplesDedup_head n t rest'
            rw [hD] at hh
            simpa using hh
          have hlast : (getSegmentSamplePoints n s).getLast? = some d0 := by
            rw [getSegmentSamplePoints_getLast n hn, hd0]
            unfold Segment.lastPos Segment.firstPos
            rw [hpair]
          rw [hD]
          show polylineLength (getSegmentSamplePoints n s ++ dtail)
            = segArcLength n s + ((t :: rest').map (segArcLength n)).sum
          rw [polylineLength_glue (getSegmentSamplePoints n s) d0 dtail hlast]
          have hih := ih htail
          rw [hD] at hih
          rw [hih.symm]
          rfl

/-- C9 witness: the additivity and non-negativity at the two-segment
zero-displacement test path with the reference subdivision. -/
theorem arc_length_additivity_witness :
    (getPathSamplePoints 100 testZero2_path).2
      = (testZero2_path.map (segArcLength 100)).sum
    ∧ 0 ≤ (getPathSamplePoints 100 testZero2_path).2 :=
  arc_length_additivity_theorem 100 testZero2_path (by norm_num)
    testZero2_path_chained

end PathJerryio
